import Mathlib

/-!
Shallow embedding of the repository-inspection pipeline of
`repo_analyzer.py` (class `RepoAnalyzer`): the tree walker
`_analyze_file_structure`, the metrics pass `_analyze_code_metrics`,
and the Python string/path library operations they invoke
(`str.strip`, `str.startswith`, `str.endswith`, `str.lower`,
`os.path.splitext`, `".git" in s`, `os.walk`).

Machine strings are `String`/`List Char`; file contents are the
`readlines()` result (`some lines`) or `none` when opening/decoding the
file raises (the `except Exception: continue` path).
-/

namespace RA

/-! ## Python string primitives -/

/-- Model of Python `s.startswith(pat)` on character lists: `startsL pat s`
is true when `pat` is an initial segment of `s`. -/
def startsL : List Char → List Char → Bool
  | [], _ => true
  | _ :: _, [] => false
  | p :: ps, c :: cs => p = c && startsL ps cs

/-- Model of Python `pat in s` (substring containment) on character lists. -/
def subL (pat : List Char) : List Char → Bool
  | [] => startsL pat []
  | c :: cs => startsL pat (c :: cs) || subL pat cs

/-- Model of Python `needle in hay` on strings. -/
def pyIn (needle hay : String) : Bool := subL needle.data hay.data

/-- Model of Python `s.endswith(suf)`: `s` ends with `suf` exactly when the
reversal of `s` starts with the reversal of `suf`. -/
def endsL (suf s : List Char) : Bool := startsL suf.reverse s.reverse

/-- ASCII whitespace stripped by Python `str.strip()` (the characters
relevant to text lines: space, tab, newline, carriage return, vertical
tab, form feed). -/
def isWS (c : Char) : Bool :=
  c = ' ' || c = '\t' || c = '\n' || c = '\r' || c = '\x0b' || c = '\x0c'

/-- Model of Python `str.strip()`: drop whitespace from both ends. -/
def stripL (s : List Char) : List Char :=
  ((s.dropWhile isWS).reverse.dropWhile isWS).reverse

/-- Model of Python `str.lower()` (ASCII range, which covers every
extension the analyzer handles). -/
def lowerStr (s : String) : String := ⟨s.data.map Char.toLower⟩

/-! ## Model of `os.path.splitext(name)[1]`

CPython (`genericpath._splitext`) takes the suffix of the filename that
begins at the LAST dot, except that it returns the empty extension when
every character strictly before that dot is itself a dot (so dotfiles
such as `.gitignore` have no extension).  The two helpers below compute
exactly those two ingredients by recursion on the name. -/

/-- The suffix of `p` beginning at its last `'.'` (empty when `p` has no
dot): CPython's `p[dotIndex:]` for `dotIndex = p.rfind(".")`. -/
def tailFromLastDot : List Char → List Char
  | [] => []
  | c :: cs => if '.' ∈ cs then tailFromLastDot cs
               else if c = '.' then c :: cs else []

/-- CPython's splitext guard: true when some character strictly before the
last dot of `p` is not a dot (the `while filenameIndex < dotIndex` scan). -/
def hasStemBeforeDot : List Char → Bool
  | [] => false
  | c :: cs => if '.' ∈ cs then (decide (c ≠ '.') || hasStemBeforeDot cs) else false

/-- Model of `os.path.splitext(name)[1]` for a bare filename (the names
produced by `os.walk` contain no path separator). -/
def splitextExt (p : List Char) : List Char :=
  if hasStemBeforeDot p then tailFromLastDot p else []

/-- The analyzer's extension classifier: `os.path.splitext(file)[1].lower()`
(line 143 of `repo_analyzer.py`). -/
def classifyExt (name : String) : String := lowerStr ⟨splitextExt name.data⟩

/-! ## Filesystem model and `os.walk`

A directory holds named subdirectories and files.  A file carries its
byte size and its decoded content: `some lines` is the `readlines()`
result, `none` means `open`/decode raises for it. -/

structure FileInfo where
  name : String
  size : Nat
  content : Option (List String)
deriving DecidableEq, Repr

mutual
inductive DirTree where
  | node : SubDirs → List FileInfo → DirTree
inductive SubDirs where
  | nil : SubDirs
  | cons : String → DirTree → SubDirs → SubDirs
end

/-- The names of the direct subdirectories, in listing order. -/
def SubDirs.names : SubDirs → List String
  | .nil => []
  | .cons n _ rest => n :: rest.names

/-- Model of `os.path.join` on the relative paths `os.path.relpath`
produces: the root is `"."`, and a child of `rel` is `rel ++ "/" ++ name`
except directly under the root. -/
def joinRel (rel name : String) : String :=
  if rel = "." then name else rel ++ "/" ++ name

/-- One `os.walk` triple, with the directory path already made relative
to the walked root (`os.path.relpath(root, repo_path)`): the relative
path, the direct subdirectory names, and the direct files. -/
abbrev Triple := String × List String × List FileInfo

mutual
/-- Model of top-down `os.walk` from a directory whose relative path is
`rel`: its own triple first, then the walks of its subdirectories. -/
def DirTree.walkFrom : String → DirTree → List Triple
  | rel, .node subs files => (rel, subs.names, files) :: subs.walkAll rel
def SubDirs.walkAll : String → SubDirs → List Triple
  | _, .nil => []
  | rel, .cons n t rest => t.walkFrom (joinRel rel n) ++ rest.walkAll rel
end

/-- Model of `os.walk(root)`: on an existing directory it walks the tree;
on a path that does not exist or is not a directory it yields nothing
(the scandir error goes to the default `onerror=None` and is swallowed). -/
def osWalk : Option DirTree → List Triple
  | none => []
  | some t => t.walkFrom "."

mutual
/-- Every file anywhere in the tree, in walk order (own files first,
then the subdirectories' files). -/
def DirTree.allFiles : DirTree → List FileInfo
  | .node subs files => files ++ subs.allFilesList
def SubDirs.allFilesList : SubDirs → List FileInfo
  | .nil => []
  | .cons _ t rest => t.allFiles ++ rest.allFilesList
end

/-! ## The tree walker `_analyze_file_structure` (lines 119-153)

The Python function builds a dict `structure` with keys `directories`,
`files`, `file_types`, `total_files`; dict insertions are modelled as
ordered association lists. -/

/-- The `structure` dict: directory summaries `(rel_path, file_count,
subdirectories)`, file records `(path, size, extension)`, the extension
histogram, and the file counter. -/
structure FileStructure where
  directories : List (String × Nat × Nat)
  files : List (String × Nat × String)
  file_types : List (String × Nat)
  total_files : Nat
deriving DecidableEq, Repr

def emptyFileStructure : FileStructure := ⟨[], [], [], 0⟩

/-- Model of `d[k] = d.get(k, 0) + 1` on the histogram. -/
def bump : List (String × Nat) → String → List (String × Nat)
  | [], k => [(k, 1)]
  | (k', v) :: rest, k =>
      if k' = k then (k', v + 1) :: rest else (k', v) :: bump rest k

/-- The body of the `for file in files` loop (lines 142-151): classify the
extension, bump the histogram, count the file, and record its path, size
and extension. -/
def addFileRec (st : FileStructure) (rel : String) (fi : FileInfo) : FileStructure :=
  let ext := classifyExt fi.name
  { st with
    file_types := bump st.file_types ext
    total_files := st.total_files + 1
    files := st.files ++ [(joinRel rel fi.name, fi.size, ext)] }

/-- The body of the `for root, dirs, files in os.walk(...)` loop
(lines 128-151): skip the root triple and any triple whose relative path
contains `".git"`, otherwise record the directory summary and process
its files. -/
def processTriple (st : FileStructure) (t : Triple) : FileStructure :=
  let (rel, dirNames, files) := t
  if rel = "." then st
  else if pyIn ".git" rel then st
  else
    let st1 := { st with
      directories := st.directories ++ [(rel, files.length, dirNames.length)] }
    files.foldl (fun s fi => addFileRec s rel fi) st1

/-- The walker fold with an explicit accumulator. -/
def structAux (st : FileStructure) (triples : List Triple) : FileStructure :=
  triples.foldl processTriple st

/-- `_analyze_file_structure`, as a function of the `os.walk` output. -/
def analyzeFileStructure (triples : List Triple) : FileStructure :=
  structAux emptyFileStructure triples

/-! ## The metrics pass `_analyze_code_metrics` (lines 183-219) -/

/-- The `file.endswith(('.py', '.js', '.java', '.cpp', '.cs', '.rb',
'.php', '.go'))` selection (line 199): case-sensitive suffix match. -/
def isSourceName (name : String) : Bool :=
  [".py", ".js", ".java", ".cpp", ".cs", ".rb", ".php", ".go"].any
    fun e => endsL e.data name.data

/-- The comment lead tokens of lines 205-206. -/
def commentToks : List (List Char) := ["#", "//", "/*", "*", "*/"].map String.data

/-- Whether a stripped line starts with one of the comment tokens. -/
def startsAny (s : List Char) : Bool := commentToks.any fun tok => startsL tok s

/-- Line 207: `not l.strip()`. -/
def isBlankL (l : String) : Bool := (stripL l.data).isEmpty

/-- Line 206: `l.strip().startswith(('#', '//', '/*', '*', '*/'))`. -/
def isCommentL (l : String) : Bool := startsAny (stripL l.data)

/-- Line 205: `l.strip() and not l.strip().startswith(...)`. -/
def isCodeL (l : String) : Bool :=
  !(stripL l.data).isEmpty && !startsAny (stripL l.data)

inductive SizeClass where
  | small | medium | large
deriving DecidableEq, Repr

/-- The size classification of lines 210-215: `< 100` small, `elif < 500`
medium, `else` large. -/
def sizeBucket (n : Nat) : SizeClass :=
  if n < 100 then .small else if n < 500 then .medium else .large

/-- The `metrics` dict (lines 185-195), with the `file_sizes` sub-dict
flattened into the last three fields. -/
structure Metrics where
  total_lines : Nat
  code_lines : Nat
  comment_lines : Nat
  blank_lines : Nat
  small : Nat
  medium : Nat
  large : Nat
deriving DecidableEq, Repr

def emptyMetrics : Metrics := ⟨0, 0, 0, 0, 0, 0, 0⟩

/-- The body of the metrics file loop (lines 198-217): files are selected
by suffix only; a file whose open/decode raises (`content = none`)
contributes nothing (`except Exception: continue`); otherwise every
counter is incremented and exactly one size bucket grows. -/
def addFile (m : Metrics) (fi : FileInfo) : Metrics :=
  if isSourceName fi.name then
    match fi.content with
    | none => m
    | some lines =>
      let m1 : Metrics :=
        { m with
          total_lines := m.total_lines + lines.length
          code_lines := m.code_lines + (lines.filter isCodeL).length
          comment_lines := m.comment_lines + (lines.filter isCommentL).length
          blank_lines := m.blank_lines + (lines.filter isBlankL).length }
      match sizeBucket lines.length with
      | .small => { m1 with small := m1.small + 1 }
      | .medium => { m1 with medium := m1.medium + 1 }
      | .large => { m1 with large := m1.large + 1 }
  else m

/-- The metrics fold with an explicit accumulator: note that this walk
(line 197) skips nothing — no `"."` check, no `".git"` check. -/
def metricsAux (m : Metrics) (triples : List Triple) : Metrics :=
  triples.foldl (fun acc t => t.2.2.foldl addFile acc) m

/-- `_analyze_code_metrics`, as a function of the `os.walk` output. -/
def analyzeCodeMetrics (triples : List Triple) : Metrics :=
  metricsAux emptyMetrics triples

/-! ## Derived descriptions of the two folds

These restate what each pass touches as explicit lists and sums, so the
claims can be phrased as equalities between the accumulated dictionaries
and arithmetic over the walked files. -/

/-- All files of a walk, in walk order (the metrics pass reads exactly
these, with no directory skipped). -/
def tripleFiles : List Triple → List FileInfo
  | [] => []
  | t :: ts => t.2.2 ++ tripleFiles ts

/-- The decoded line lists of the files the metrics pass counts: those
selected by suffix whose content decodes. -/
def countedLines : List FileInfo → List (List String)
  | [] => []
  | fi :: rest =>
      match (if isSourceName fi.name then fi.content else none) with
      | some ls => ls :: countedLines rest
      | none => countedLines rest

/-- Sum of the lengths of the line lists. -/
def sumLens : List (List String) → Nat
  | [] => 0
  | ls :: rest => ls.length + sumLens rest

/-- Sum over the line lists of the number of lines satisfying `p`. -/
def sumFilter (p : String → Bool) : List (List String) → Nat
  | [] => 0
  | ls :: rest => (ls.filter p).length + sumFilter p rest

/-- A walk triple the tree walker skips: the root (`rel_path == "."`) or a
relative path containing `".git"`. -/
def skipTriple (t : Triple) : Bool := t.1 = "." || pyIn ".git" t.1

/-- The file records one directory's files produce. -/
def fileRecsOf (rel : String) (files : List FileInfo) : List (String × Nat × String) :=
  files.map fun fi => (joinRel rel fi.name, fi.size, classifyExt fi.name)

/-- The classified extensions of one directory's files. -/
def extsOf (files : List FileInfo) : List String :=
  files.map fun fi => classifyExt fi.name

/-- The directory summaries the walker keeps, in walk order. -/
def walkedDirs : List Triple → List (String × Nat × Nat)
  | [] => []
  | t :: ts =>
      (if skipTriple t then [] else [(t.1, t.2.2.length, t.2.1.length)]) ++ walkedDirs ts

/-- The file records the walker keeps, in walk order. -/
def walkedRecs : List Triple → List (String × Nat × String)
  | [] => []
  | t :: ts => (if skipTriple t then [] else fileRecsOf t.1 t.2.2) ++ walkedRecs ts

/-- The extensions the walker feeds to the histogram, in walk order. -/
def walkedExts : List Triple → List String
  | [] => []
  | t :: ts => (if skipTriple t then [] else extsOf t.2.2) ++ walkedExts ts

/-- How many files the walker counts. -/
def walkedCount : List Triple → Nat
  | [] => 0
  | t :: ts => (if skipTriple t then 0 else t.2.2.length) + walkedCount ts

/-- Bump the histogram once per key in the list. -/
def bumpAll (h : List (String × Nat)) (ks : List String) : List (String × Nat) :=
  ks.foldl bump h

/-- Total of all histogram counts. -/
def histSum (h : List (String × Nat)) : Nat := (h.map fun e => e.2).sum

/-! ## Lemmas about the histogram -/

theorem histSum_bump (h : List (String × Nat)) (k : String) :
    histSum (bump h k) = histSum h + 1 := by
  induction h with
  | nil => simp [bump, histSum]
  | cons e rest ih =>
      obtain ⟨k', v⟩ := e
      by_cases hk : k' = k <;> simp [bump, hk, histSum] at * <;> omega

theorem histSum_bumpAll (ks : List String) :
    ∀ h, histSum (bumpAll h ks) = histSum h + ks.length := by
  induction ks with
  | nil => intro h; simp [bumpAll]
  | cons k ks ih =>
      intro h
      have : bumpAll h (k :: ks) = bumpAll (bump h k) ks := rfl
      rw [this, ih, histSum_bump]
      simp; omega

theorem bumpAll_append (h : List (String × Nat)) (a b : List String) :
    bumpAll h (a ++ b) = bumpAll (bumpAll h a) b := by
  simp [bumpAll, List.foldl_append]

/-! ## Lemmas: decomposing the tree walker fold -/

theorem filesFold_eq (rel : String) :
    ∀ (fs : List FileInfo) (st : FileStructure),
      fs.foldl (fun s fi => addFileRec s rel fi) st =
        { directories := st.directories
          files := st.files ++ fileRecsOf rel fs
          file_types := bumpAll st.file_types (extsOf fs)
          total_files := st.total_files + fs.length } := by
  intro fs
  induction fs with
  | nil => intro st; simp [fileRecsOf, extsOf, bumpAll]
  | cons fi fs ih =>
      intro st
      simp only [List.foldl_cons]
      rw [ih]
      simp [addFileRec, fileRecsOf, extsOf, bumpAll]
      omega

theorem processTriple_skip {t : Triple} (st : FileStructure)
    (h : skipTriple t = true) : processTriple st t = st := by
  obtain ⟨rel, ds, fs⟩ := t
  simp [skipTriple] at h
  rcases h with h | h
  · simp [processTriple, h]
  · by_cases hr : rel = "."
    · simp [processTriple, hr]
    · simp [processTriple, hr, h]

theorem processTriple_go {t : Triple} (st : FileStructure)
    (h : skipTriple t = false) :
    processTriple st t =
      { directories := st.directories ++ [(t.1, t.2.2.length, t.2.1.length)]
        files := st.files ++ fileRecsOf t.1 t.2.2
        file_types := bumpAll st.file_types (extsOf t.2.2)
        total_files := st.total_files + t.2.2.length } := by
  obtain ⟨rel, ds, fs⟩ := t
  simp [skipTriple] at h
  obtain ⟨hr, hg⟩ := h
  simp only [processTriple, if_neg hr, hg, Bool.false_eq_true, if_false]
  rw [filesFold_eq]

theorem structAux_eq : ∀ (ts : List Triple) (st : FileStructure),
    structAux st ts =
      { directories := st.directories ++ walkedDirs ts
        files := st.files ++ walkedRecs ts
        file_types := bumpAll st.file_types (walkedExts ts)
        total_files := st.total_files + walkedCount ts } := by
  intro ts
  induction ts with
  | nil =>
      intro st
      simp [structAux, walkedDirs, walkedRecs, walkedExts, walkedCount, bumpAll]
  | cons t ts ih =>
      intro st
      have step : structAux st (t :: ts) = structAux (processTriple st t) ts := rfl
      rw [step, ih]
      by_cases hs : skipTriple t
      · rw [processTriple_skip st hs]
        simp [walkedDirs, walkedRecs, walkedExts, walkedCount, hs]
      · have hs' : skipTriple t = false := by simpa using hs
        rw [processTriple_go st hs']
        simp [walkedDirs, walkedRecs, walkedExts, walkedCount, hs', bumpAll_append]
        omega

theorem analyzeFileStructure_eq (ts : List Triple) :
    analyzeFileStructure ts =
      { directories := walkedDirs ts
        files := walkedRecs ts
        file_types := bumpAll [] (walkedExts ts)
        total_files := walkedCount ts } := by
  rw [analyzeFileStructure, structAux_eq]
  simp [emptyFileStructure]

theorem walkedRecs_length (ts : List Triple) :
    (walkedRecs ts).length = walkedCount ts := by
  induction ts with
  | nil => simp [walkedRecs, walkedCount]
  | cons t ts ih =>
      by_cases hs : skipTriple t <;> simp [walkedRecs, walkedCount, hs, ih, fileRecsOf]

theorem walkedExts_length (ts : List Triple) :
    (walkedExts ts).length = walkedCount ts := by
  induction ts with
  | nil => simp [walkedExts, walkedCount]
  | cons t ts ih =>
      by_cases hs : skipTriple t <;> simp [walkedExts, walkedCount, hs, ih, extsOf]

theorem mem_walkedDirs {ts : List Triple} {p : String × Nat × Nat}
    (h : p ∈ walkedDirs ts) :
    ∃ t, t ∈ ts ∧ skipTriple t = false ∧ p = (t.1, t.2.2.length, t.2.1.length) := by
  induction ts with
  | nil => simp [walkedDirs] at h
  | cons t ts ih =>
      by_cases hs : skipTriple t
      · rw [walkedDirs, if_pos hs, List.nil_append] at h
        obtain ⟨u, hu, h2, h3⟩ := ih h
        exact ⟨u, List.mem_cons_of_mem _ hu, h2, h3⟩
      · have hs' : skipTriple t = false := by simpa using hs
        rw [walkedDirs, if_neg hs] at h
        rcases List.mem_append.mp h with h | h
        · refine ⟨t, List.mem_cons_self _ _, hs', ?_⟩
          simpa using h
        · obtain ⟨u, hu, h2, h3⟩ := ih h
          exact ⟨u, List.mem_cons_of_mem _ hu, h2, h3⟩

/-! ## Lemmas: decomposing the metrics fold -/

theorem metricsAux_eq_foldl : ∀ (ts : List Triple) (m : Metrics),
    metricsAux m ts = (tripleFiles ts).foldl addFile m := by
  intro ts
  induction ts with
  | nil => intro m; rfl
  | cons t ts ih =>
      intro m
      have step : metricsAux m (t :: ts) = metricsAux (t.2.2.foldl addFile m) ts := rfl
      rw [step, ih, tripleFiles, List.foldl_append]

theorem countedLines_cons (fi : FileInfo) (fs : List FileInfo) :
    countedLines (fi :: fs) = countedLines [fi] ++ countedLines fs := by
  rcases h : (if isSourceName fi.name then fi.content else none) with _ | ls <;>
    simp [countedLines, h]

theorem sumLens_append (a b : List (List String)) :
    sumLens (a ++ b) = sumLens a + sumLens b := by
  induction a with
  | nil => simp [sumLens]
  | cons x a ih => simp [sumLens, ih]; omega

theorem sumFilter_append (p : String → Bool) (a b : List (List String)) :
    sumFilter p (a ++ b) = sumFilter p a + sumFilter p b := by
  induction a with
  | nil => simp [sumFilter]
  | cons x a ih => simp [sumFilter, ih]; omega

theorem addFile_counts (m : Metrics) (fi : FileInfo) :
    (addFile m fi).total_lines = m.total_lines + sumLens (countedLines [fi]) ∧
    (addFile m fi).code_lines = m.code_lines + sumFilter isCodeL (countedLines [fi]) ∧
    (addFile m fi).comment_lines
      = m.comment_lines + sumFilter isCommentL (countedLines [fi]) ∧
    (addFile m fi).blank_lines
      = m.blank_lines + sumFilter isBlankL (countedLines [fi]) := by
  by_cases hs : isSourceName fi.name
  · cases hc : fi.content with
    | none => simp [addFile, hs, hc, countedLines, sumLens, sumFilter]
    | some ls =>
        cases hb : sizeBucket ls.length <;>
          simp [addFile, hs, hc, hb, countedLines, sumLens, sumFilter]
  · simp [addFile, hs, countedLines, sumLens, sumFilter]

theorem foldl_addFile_counts : ∀ (fs : List FileInfo) (m : Metrics),
    ((fs.foldl addFile m).total_lines
        = m.total_lines + sumLens (countedLines fs)) ∧
    ((fs.foldl addFile m).code_lines
        = m.code_lines + sumFilter isCodeL (countedLines fs)) ∧
    ((fs.foldl addFile m).comment_lines
        = m.comment_lines + sumFilter isCommentL (countedLines fs)) ∧
    ((fs.foldl addFile m).blank_lines
        = m.blank_lines + sumFilter isBlankL (countedLines fs)) := by
  intro fs
  induction fs with
  | nil => intro m; simp [countedLines, sumLens, sumFilter]
  | cons fi fs ih =>
      intro m
      obtain ⟨a1, a2, a3, a4⟩ := addFile_counts m fi
      obtain ⟨b1, b2, b3, b4⟩ := ih (addFile m fi)
      rw [List.foldl_cons] at *
      rw [countedLines_cons, sumLens_append, sumFilter_append, sumFilter_append,
        sumFilter_append]
      refine ⟨?_, ?_, ?_, ?_⟩ <;> omega

/-! ## Lemmas: each line lands in exactly one category -/

theorem startsAny_nil : startsAny [] = false := rfl

theorem line_cases (l : String) :
    (isCodeL l = true ∧ isCommentL l = false ∧ isBlankL l = false) ∨
    (isCodeL l = false ∧ isCommentL l = true ∧ isBlankL l = false) ∨
    (isCodeL l = false ∧ isCommentL l = false ∧ isBlankL l = true) := by
  unfold isCodeL isCommentL isBlankL
  cases hs : stripL l.data with
  | nil => right; right; simp [startsAny_nil]
  | cons c cs =>
      cases ha : startsAny (c :: cs) with
      | true => right; left; simp [ha]
      | false => left; simp [ha]

theorem filter_three (ls : List String) :
    (ls.filter isCodeL).length + (ls.filter isCommentL).length
      + (ls.filter isBlankL).length = ls.length := by
  induction ls with
  | nil => simp
  | cons l ls ih =>
      rcases line_cases l with ⟨h1, h2, h3⟩ | ⟨h1, h2, h3⟩ | ⟨h1, h2, h3⟩ <;>
        simp [List.filter_cons, h1, h2, h3] <;> omega

theorem sumLens_split (lss : List (List String)) :
    sumLens lss = sumFilter isCodeL lss + sumFilter isCommentL lss
      + sumFilter isBlankL lss := by
  induction lss with
  | nil => simp [sumLens, sumFilter]
  | cons ls lss ih =>
      have h := filter_three ls
      simp [sumLens, sumFilter, ih]
      omega

/-! ## Lemmas: the walk flattened to its files -/

theorem tripleFiles_append (a b : List Triple) :
    tripleFiles (a ++ b) = tripleFiles a ++ tripleFiles b := by
  induction a with
  | nil => simp [tripleFiles]
  | cons t a ih => simp [tripleFiles, ih]

mutual
theorem walkFrom_files (rel : String) (t : DirTree) :
    tripleFiles (t.walkFrom rel) = t.allFiles := by
  cases t with
  | node subs files =>
      rw [DirTree.walkFrom, DirTree.allFiles, tripleFiles,
        walkAll_files rel subs]
theorem walkAll_files (rel : String) (s : SubDirs) :
    tripleFiles (SubDirs.walkAll rel s) = s.allFilesList := by
  cases s with
  | nil => rfl
  | cons n t rest =>
      rw [SubDirs.walkAll, SubDirs.allFilesList, tripleFiles_append,
        walkFrom_files (joinRel rel n) t, walkAll_files rel rest]
end

/-! ## Lemmas: the splitext guard in terms of leading dots -/

theorem mem_of_mem_dropWhile {α : Type} (q : α → Bool) (a : α) :
    ∀ l : List α, a ∈ l.dropWhile q → a ∈ l := by
  intro l
  induction l with
  | nil => simp
  | cons x l ih =>
      rw [List.dropWhile_cons]
      split
      · intro h; exact List.mem_cons_of_mem _ (ih h)
      · exact id

theorem hasStem_iff (p : List Char) :
    hasStemBeforeDot p = true ↔ '.' ∈ p.dropWhile (fun c => decide (c = '.')) := by
  induction p with
  | nil => simp [hasStemBeforeDot]
  | cons c cs ih =>
      by_cases hc : c = '.'
      · subst hc
        by_cases hm : '.' ∈ cs
        · simp [hasStemBeforeDot, hm, List.dropWhile_cons, ih]
        · simp [hasStemBeforeDot, hm, List.dropWhile_cons]
          intro h
          exact hm (mem_of_mem_dropWhile _ _ _ h)
      · have hne : ¬('.' = c) := fun h => hc h.symm
        by_cases hm : '.' ∈ cs <;>
          simp [hasStemBeforeDot, hm, hc, List.dropWhile_cons, hne]

/-! ## Concrete trees used by the counterexamples and scenarios -/

/-- A repository whose only source files are one directly in the root and
one inside `.git` — neither is ever a walker `FileRecord`. -/
def ctreeGitFile : DirTree :=
  .node (.cons ".git" (.node .nil [⟨"a.py", 3, some ["x"]⟩]) .nil)
    [⟨"b.py", 5, some ["y", "z"]⟩]

/-- A repository with a single file directly in the root directory. -/
def ctreeRootFile : DirTree := .node .nil [⟨"a.txt", 7, none⟩]

/-- A repository whose only file is an undecodable binary with a
source-like extension. -/
def ctreeBinary : DirTree := .node .nil [⟨"blob.py", 2048, none⟩]

/-- A repository with one decodable file whose extension is an uppercase
variant of a source-like extension. -/
def ctreeUpper : DirTree :=
  .node (.cons "d" (.node .nil [⟨"MAIN.PY", 4, some ["x"]⟩]) .nil) []

/-- A repository where `d` has two subdirectories, one of them named
`.git`. -/
def ctreeGitSub : DirTree :=
  .node (.cons "d"
    (.node (.cons ".git" (.node .nil []) (.cons "x" (.node .nil []) .nil)) []) .nil) []

/-! ## Claim theorems -/

/-- C1: every line of a counted text file is classified into exactly one
of blank, comment-like and code-like, so `total_lines = code_lines +
comment_lines + blank_lines`, and each aggregate CodeMetrics total is the
arithmetic sum of the per-file counts over all counted files. -/
theorem c1_metrics_line_partition (ts : List Triple) :
    (analyzeCodeMetrics ts).total_lines
        = (analyzeCodeMetrics ts).code_lines + (analyzeCodeMetrics ts).comment_lines
          + (analyzeCodeMetrics ts).blank_lines ∧
    (analyzeCodeMetrics ts).total_lines = sumLens (countedLines (tripleFiles ts)) ∧
    (analyzeCodeMetrics ts).code_lines
        = sumFilter isCodeL (countedLines (tripleFiles ts)) ∧
    (analyzeCodeMetrics ts).comment_lines
        = sumFilter isCommentL (countedLines (tripleFiles ts)) ∧
    (analyzeCodeMetrics ts).blank_lines
        = sumFilter isBlankL (countedLines (tripleFiles ts)) ∧
    ∀ ls : List String,
      ls.length = (ls.filter isCodeL).length + (ls.filter isCommentL).length
        + (ls.filter isBlankL).length := by
  have hM : analyzeCodeMetrics ts = (tripleFiles ts).foldl addFile emptyMetrics :=
    metricsAux_eq_foldl ts emptyMetrics
  obtain ⟨h1, h2, h3, h4⟩ := foldl_addFile_counts (tripleFiles ts) emptyMetrics
  have hsplit := sumLens_split (countedLines (tripleFiles ts))
  rw [hM]
  rw [show emptyMetrics.total_lines = 0 from rfl, Nat.zero_add] at h1
  rw [show emptyMetrics.code_lines = 0 from rfl, Nat.zero_add] at h2
  rw [show emptyMetrics.comment_lines = 0 from rfl, Nat.zero_add] at h3
  rw [show emptyMetrics.blank_lines = 0 from rfl, Nat.zero_add] at h4
  refine ⟨?_, h1, h2, h3, h4, fun ls => (filter_three ls).symm⟩
  omega

/-- C2 counterexample: in `ctreeGitFile` no file is emitted as a
FileRecord (one lies in the root, the other inside `.git`), yet the
metrics pass counts all three of their lines. -/
theorem c2_cx_unwalked_files_counted :
    (analyzeFileStructure (osWalk (some ctreeGitFile))).files = [] ∧
    (analyzeFileStructure (osWalk (some ctreeGitFile))).total_files = 0 ∧
    (analyzeCodeMetrics (osWalk (some ctreeGitFile))).total_lines = 3 :=
  ⟨by decide, by decide, by decide⟩

/-- C2 amended: the metrics pass performs its own unfiltered walk — it
folds over every file of the whole tree (root files and files under
excluded `.git` directories included), each exactly once, filtering only
by filename suffix and decodability inside `addFile`. -/
theorem c2_metrics_counts_whole_tree (t : DirTree) :
    analyzeCodeMetrics (osWalk (some t))
      = (DirTree.allFiles t).foldl addFile emptyMetrics := by
  have h : analyzeCodeMetrics (osWalk (some t))
      = (tripleFiles (t.walkFrom ".")).foldl addFile emptyMetrics :=
    metricsAux_eq_foldl _ _
  rw [h, walkFrom_files]

/-- C3 counterexample: a file lying directly in the root directory gets no
FileRecord, no histogram entry and no `total_files` increment, because the
walker `continue`s on `rel_path == "."` before its file loop. -/
theorem c3_cx_root_file_not_recorded :
    (analyzeFileStructure (osWalk (some ctreeRootFile))).total_files = 0 ∧
    (analyzeFileStructure (osWalk (some ctreeRootFile))).files = [] ∧
    (analyzeFileStructure (osWalk (some ctreeRootFile))).file_types = [] :=
  ⟨by decide, by decide, by decide⟩

/-- C3 amended: the walker records exactly the files of non-root,
non-`.git` directories — one FileRecord (path, size, classified
extension) per such file, `total_files` equals their number, and the
histogram counts sum to `total_files`; files directly in the root
contribute nothing. -/
theorem c3_walker_counts (ts : List Triple) :
    (analyzeFileStructure ts).files = walkedRecs ts ∧
    (analyzeFileStructure ts).total_files = walkedCount ts ∧
    (analyzeFileStructure ts).total_files = (walkedRecs ts).length ∧
    histSum (analyzeFileStructure ts).file_types
      = (analyzeFileStructure ts).total_files := by
  rw [analyzeFileStructure_eq]
  refine ⟨rfl, rfl, (walkedRecs_length ts).symm, ?_⟩
  rw [histSum_bumpAll]
  simp [histSum, walkedExts_length]

/-- C4: the size bucket is determined by the line count with boundaries
`< 100` small, `100 ≤ n < 500` medium, `≥ 500` large; 99 is small, 100
and 499 medium, 500 large; and `addFile` grows exactly the bucket of the
file's line count. -/
theorem c4_size_bucket_boundaries :
    (∀ n : Nat,
        (sizeBucket n = SizeClass.small ↔ n < 100) ∧
        (sizeBucket n = SizeClass.medium ↔ 100 ≤ n ∧ n < 500) ∧
        (sizeBucket n = SizeClass.large ↔ 500 ≤ n)) ∧
    sizeBucket 99 = SizeClass.small ∧ sizeBucket 100 = SizeClass.medium ∧
    sizeBucket 499 = SizeClass.medium ∧ sizeBucket 500 = SizeClass.large ∧
    ∀ (m : Metrics) (ls : List String),
      ((addFile m ⟨"f.py", 0, some ls⟩).small
          = m.small + if sizeBucket ls.length = SizeClass.small then 1 else 0) ∧
      ((addFile m ⟨"f.py", 0, some ls⟩).medium
          = m.medium + if sizeBucket ls.length = SizeClass.medium then 1 else 0) ∧
      ((addFile m ⟨"f.py", 0, some ls⟩).large
          = m.large + if sizeBucket ls.length = SizeClass.large then 1 else 0) := by
  refine ⟨?_, by decide, by decide, by decide, by decide, ?_⟩
  · intro n
    simp only [sizeBucket]
    split_ifs with h1 h2 <;> refine ⟨?_, ?_, ?_⟩ <;> simp <;> omega
  · intro m ls
    have hsrc : isSourceName "f.py" = true := by decide
    cases hb : sizeBucket ls.length <;> simp [addFile, hsrc, hb]

/-- C5: a walk triple whose relative path contains the literal substring
`.git` contributes nothing at all to the structure (no directory summary,
no file records, no histogram bumps, no `total_files`), and no directory
summary key contains `.git`. -/
theorem c5_git_exclusion :
    (∀ (pre post : List Triple) (rel : String) (ds : List String)
        (fs : List FileInfo),
        pyIn ".git" rel = true →
          analyzeFileStructure (pre ++ (rel, ds, fs) :: post)
            = analyzeFileStructure (pre ++ post)) ∧
    (∀ (ts : List Triple) (p : String × Nat × Nat),
        p ∈ (analyzeFileStructure ts).directories → pyIn ".git" p.1 = false) := by
  constructor
  · intro pre post rel ds fs h
    show structAux emptyFileStructure _ = structAux emptyFileStructure _
    rw [structAux, structAux, List.foldl_append, List.foldl_append, List.foldl_cons]
    rw [processTriple_skip _ (by simp [skipTriple, h])]
  · intro ts p hp
    rw [analyzeFileStructure_eq] at hp
    obtain ⟨t, _, hskip, rfl⟩ := mem_walkedDirs hp
    simp [skipTriple] at hskip
    exact hskip.2

/-- C5 witness: a concrete `.git` triple is dropped whole, and a concrete
recorded directory key is `.git`-free. -/
theorem c5_git_exclusion_witness :
    analyzeFileStructure ([] ++ (".git", [], []) :: []) = analyzeFileStructure ([] ++ []) ∧
    pyIn ".git" "src" = false :=
  ⟨c5_git_exclusion.1 [] [] ".git" [] [] (by decide),
    c5_git_exclusion.2 [("src", [], [])] ("src", 0, 0) (by decide)⟩

/-- C6: a source-like file whose open or decode fails contributes nothing
to any metric (the whole contribution is skipped atomically), and a tree
whose only file is such a binary yields all-zero code metrics with no
error. -/
theorem c6_undecodable_skipped :
    (∀ (m : Metrics) (fi : FileInfo), fi.content = none → addFile m fi = m) ∧
    analyzeCodeMetrics (osWalk (some ctreeBinary)) = emptyMetrics := by
  constructor
  · intro m fi h
    by_cases hs : isSourceName fi.name <;> simp [addFile, hs, h]
  · decide

/-- C6 witness: the undecodable `blob.py` leaves the metrics unchanged. -/
theorem c6_undecodable_skipped_witness :
    addFile emptyMetrics ⟨"blob.py", 2048, none⟩ = emptyMetrics :=
  c6_undecodable_skipped.1 emptyMetrics ⟨"blob.py", 2048, none⟩ rfl

/-- C7 counterexample: walking a root that does not exist (or is not a
directory) raises nothing — `os.walk` yields no entries and the analysis
returns the ordinary empty structure, contradicting the claimed fatal
AccessError. -/
theorem c7_cx_missing_root_no_error :
    analyzeFileStructure (osWalk none) = emptyFileStructure := rfl

/-- C7 amended: on a nonexistent or non-directory root the walk yields no
triples and both passes return their empty results normally (empty
DirectorySummary, no FileRecords, empty histogram, zero totals), with no
error surfaced. -/
theorem c7_missing_root_empty_result :
    osWalk none = [] ∧
    analyzeFileStructure (osWalk none) = emptyFileStructure ∧
    analyzeCodeMetrics (osWalk none) = emptyMetrics :=
  ⟨rfl, rfl, rfl⟩

/-- C8 counterexample: for the dotfile `.gitignore` the classifier returns
the empty string, not the lowercase whole name. -/
theorem c8_cx_dotfile_extension :
    classifyExt ".gitignore" = "" ∧ classifyExt ".gitignore" ≠ ".gitignore" :=
  ⟨by decide, by decide⟩

/-- C8 amended: the classifier is pure and total; it returns the lowercase
suffix of the filename from the last `.` when some character before that
dot is not itself a dot, and the empty string otherwise — in particular a
name whose only dots are leading (such as `.gitignore`) yields `""`. -/
theorem c8_classifier_characterization :
    (∀ name : String,
        classifyExt name =
          if '.' ∈ name.data.dropWhile (fun c => decide (c = '.'))
          then lowerStr ⟨tailFromLastDot name.data⟩ else "") ∧
    classifyExt ".gitignore" = "" ∧ classifyExt "MAIN.PY" = ".py" ∧
    classifyExt "archive.tar.GZ" = ".gz" ∧ classifyExt "README" = "" := by
  refine ⟨?_, by decide, by decide, by decide, by decide⟩
  intro name
  by_cases hm : '.' ∈ name.data.dropWhile (fun c => decide (c = '.'))
  · have hb : hasStemBeforeDot name.data = true := (hasStem_iff _).mpr hm
    simp [classifyExt, splitextExt, hb, hm]
  · have hb : hasStemBeforeDot name.data = false := by
      cases h : hasStemBeforeDot name.data
      · rfl
      · exact absurd ((hasStem_iff _).mp h) hm
    simp [classifyExt, splitextExt, hb, hm, lowerStr]

/-- C9: metrics selection is case-sensitive suffix matching — a file named
`MAIN.PY` contributes nothing to CodeMetrics, even though the classifier
assigns it the lowercase `.py` extension in the histogram. -/
theorem c9_case_sensitive_selection :
    (∀ (m : Metrics) (sz : Nat) (content : Option (List String)),
        addFile m ⟨"MAIN.PY", sz, content⟩ = m) ∧
    classifyExt "MAIN.PY" = ".py" ∧
    analyzeCodeMetrics (osWalk (some ctreeUpper)) = emptyMetrics ∧
    (analyzeFileStructure (osWalk (some ctreeUpper))).file_types = [(".py", 1)] := by
  refine ⟨?_, by decide, by decide, by decide⟩
  intro m sz content
  have h : isSourceName "MAIN.PY" = false := by decide
  simp [addFile, h]

/-- C10: every directory summary's subdirectory count is the length of
the full `os.walk` dirnames list — all direct subdirectories, the
excluded ones included: in `ctreeGitSub`, `d` reports 2 subdirectories
although its `.git` child gets no summary of its own. -/
theorem c10_subdir_count_includes_excluded :
    (∀ (ts : List Triple) (p : String × Nat × Nat),
        p ∈ (analyzeFileStructure ts).directories →
          ∃ t, t ∈ ts ∧ p.1 = t.1 ∧ p.2.1 = t.2.2.length ∧ p.2.2 = t.2.1.length) ∧
    (analyzeFileStructure (osWalk (some ctreeGitSub))).directories
      = [("d", 0, 2), ("d/x", 0, 0)] := by
  constructor
  · intro ts p hp
    rw [analyzeFileStructure_eq] at hp
    obtain ⟨t, ht, _, rfl⟩ := mem_walkedDirs hp
    exact ⟨t, ht, rfl, rfl, rfl⟩
  · decide

/-- C10 witness: the summary of `d` over a concrete walk reports its
`.git` child in the subdirectory count. -/
theorem c10_subdir_count_includes_excluded_witness :
    ∃ t, t ∈ [(("d" : String), ([".git"] : List String), ([] : List FileInfo))] ∧
      (("d", 0, 1) : String × Nat × Nat).1 = t.1 ∧
      (("d", 0, 1) : String × Nat × Nat).2.1 = t.2.2.length ∧
      (("d", 0, 1) : String × Nat × Nat).2.2 = t.2.1.length :=
  c10_subdir_count_includes_excluded.1 [("d", [".git"], [])] ("d", 0, 1) (by decide)

end RA
